import Mathlib

/-!
Shallow embedding of the pair-trading core of the algo-trading-bot repository:
position sizing (src/analytics/risk.py and the sizing loop of
src/backtesting/engine.py), raw-signal assignment (src/strategies/statarb.py
and src/analytics/optimizer.py), the position state machine, the no-lookahead
lag, trade extraction (src/backtesting/engine.py), pair discovery
(src/strategies/statarb.py) and the half-life computation
(src/analytics/statistics.py).

Conventions: pandas NaN entries are modelled as `none` of an `Option` type;
exact rationals stand for Python floats; dates are integer day ordinals, so
pandas `(d2 - d1).days` is plain integer subtraction.  Statistical fits that
the source delegates to statsmodels/numpy (OLS, cointegration p-values, the
natural logarithm) enter as explicit oracle parameters.
-/

/-- Embedding of `calculate_target_position_size` (src/analytics/risk.py,
lines 12-26): returns 0 when volatility is NaN or nonpositive, otherwise
`min (target_vol / volatility) max_leverage`. -/
def calculate_target_position_size (volatility : Option ℚ) (target_vol max_leverage : ℚ) : ℚ :=
  match volatility with
  | none => 0
  | some v => if v ≤ 0 then 0 else min (target_vol / v) max_leverage

/-- Embedding of the per-date continuous-Kelly computation in
`Backtester.run_backtest` (src/backtesting/engine.py, lines 138-146):
`if var > 0: kelly_size = max(0, min(m / var, 2.0)) else: kelly_size = 0.0`.
A NaN variance fails the `var > 0` test, giving 0; a NaN mean with positive
variance gives `max(0, min(nan, 2.0))`, which evaluates to 0 under Python
builtin min/max comparison semantics. -/
def kelly_size_step (m v : Option ℚ) : ℚ :=
  match v with
  | none => 0
  | some var =>
    if 0 < var then
      match m with
      | none => 0
      | some mean => max 0 (min (mean / var) 2)
    else 0

/-- Embedding of the per-date final sizing in `Backtester.run_backtest`
(src/backtesting/engine.py, lines 131-164): the volatility-target size with
target 0.15 and max leverage 2.0, set to 0 when the (already clipped) Kelly
size is negative. -/
def position_size_step (vol_y m v : Option ℚ) : ℚ :=
  let vol_size := calculate_target_position_size vol_y (3/20) 2
  let kelly := kelly_size_step m v
  if kelly < 0 then 0 else vol_size

/-- Per-date raw-signal assignment of `StatArbStrategy.generate_signals`
(src/strategies/statarb.py, lines 108-115).  The source performs three
`.loc` writes into an initially absent column, in this order: 1 on
`zscore < -entry`, -1 on `zscore > entry`, 0 on `|zscore| < exit`; a later
write overwrites an earlier one, and a row never written holds NaN (`none`,
the HOLD value).  A NaN zscore satisfies none of the comparisons. -/
def generate_signal_raw (entry_z exit_z : ℚ) (z : Option ℚ) : Option ℤ :=
  match z with
  | none => none
  | some v =>
    let after_long : Option ℤ := if v < -entry_z then some 1 else none
    let after_short : Option ℤ := if entry_z < v then some (-1) else after_long
    if |v| < exit_z then some 0 else after_short

/-- The raw-signal assignment as the specification words it: the entry
conditions are evaluated before the exit condition, so on a date where an
entry condition and the exit condition both hold, the entry wins. -/
def spec_signal_raw (entry_z exit_z : ℚ) (z : Option ℚ) : Option ℤ :=
  match z with
  | none => none
  | some v =>
    if v < -entry_z then some 1
    else if entry_z < v then some (-1)
    else if |v| < exit_z then some 0
    else none

/-- Per-date construction of `signal_raw` inside `Optimizer.run_grid_search`
(src/analytics/optimizer.py, lines 54-72): `sig_raw` starts as the constant
0 series, then 1 is written where `zscore < -entry_z` and -1 where
`zscore > entry_z`.  The combination also carries `exit_z`, and boolean
`long_exit`/`short_exit` columns are computed from it, but they are never
consulted when building `signal_raw`; a NaN zscore keeps the default 0. -/
def optimizer_signal_raw (entry_z exit_z : ℚ) (z : Option ℚ) : ℤ :=
  match z with
  | none => 0
  | some v =>
    let after_long : ℤ := if v < -entry_z then 1 else 0
    if entry_z < v then -1 else after_long

/-- Signal series the Signal Generator produces for a zscore series. -/
def generate_signal_series (entry_z exit_z : ℚ) (zs : List (Option ℚ)) : List (Option ℤ) :=
  zs.map (generate_signal_raw entry_z exit_z)

/-- Signal series the optimizer feeds to the Backtest Engine: every entry is
a definite value (never NaN/HOLD). -/
def optimizer_signal_series (entry_z exit_z : ℚ) (zs : List (Option ℚ)) : List (Option ℤ) :=
  zs.map (fun z => some (optimizer_signal_raw entry_z exit_z z))

/-- Position latching loop of `Backtester.run_backtest`
(src/backtesting/engine.py, lines 48-84): a definite signal value becomes
the new position and state, a NaN signal repeats the current state. -/
def derive_positions (current_pos : ℤ) : List (Option ℤ) → List ℤ
  | [] => []
  | s :: rest =>
    match s with
    | none => current_pos :: derive_positions current_pos rest
    | some v => v :: derive_positions v rest

/-- Positions from raw signals, starting FLAT (state 0). -/
def run_positions (signals : List (Option ℤ)) : List ℤ :=
  derive_positions 0 signals

/-- Transition function of the position state machine as the specification
describes it: raw = +1 sets LONG, -1 sets SHORT, 0 sets FLAT, HOLD keeps
the state. -/
def claim_step (state : ℤ) (raw : Option ℤ) : ℤ :=
  match raw with
  | none => state
  | some v => v

/-- Helper: `List.scanl` always begins with its seed. -/
theorem scanl_eq_cons_tail (f : ℤ → Option ℤ → ℤ) (b : ℤ) (l : List (Option ℤ)) :
    List.scanl f b l = b :: (List.scanl f b l).tail := by
  cases l <;> rfl

/-- Helper: the engine's latching loop is the scan of the claimed state
machine, started from the given state. -/
theorem derive_positions_eq_scanl_tail (l : List (Option ℤ)) :
    ∀ c : ℤ, derive_positions c l = (List.scanl claim_step c l).tail := by
  induction l with
  | nil => intro c; rfl
  | cons s rest ih =>
    intro c
    cases s with
    | none =>
      show c :: derive_positions c rest = List.scanl claim_step (claim_step c none) rest
      rw [ih]
      exact (scanl_eq_cons_tail claim_step c rest).symm
    | some v =>
      show v :: derive_positions v rest = List.scanl claim_step (claim_step c (some v)) rest
      rw [ih]
      exact (scanl_eq_cons_tail claim_step v rest).symm

/-- C3: the Backtest Engine's positions sequence is the chronological scan of
the state machine starting FLAT, where +1, -1 and 0 set the state and HOLD leaves
it unchanged; on the raw sequence [+1, HOLD, HOLD, 0, -1, HOLD, 0] it yields
[+1, +1, +1, 0, -1, -1, 0]. -/
theorem C3_positions_state_machine :
    (∀ signals : List (Option ℤ),
      run_positions signals = (List.scanl claim_step 0 signals).tail) ∧
    run_positions [some 1, none, none, some 0, some (-1), none, some 0] =
      [1, 1, 1, 0, -1, -1, 0] :=
  ⟨fun signals => derive_positions_eq_scanl_tail signals 0, by decide⟩

/-- C1: the final per-date sizing multiplier always equals the volatility
sizer, because the Kelly estimate is clipped into [0, 2] before the
negativity test, making the `kelly_size < 0` branch unreachable; at a date
with positive variance 1, rolling mean -1 (pre-clip Kelly -1 < 0) and
volatility sizer value 3/2, the final size is 3/2, not 0. -/
theorem C1_negative_kelly_does_not_zero_size :
    (∀ vol_y m v : Option ℚ,
      position_size_step vol_y m v = calculate_target_position_size vol_y (3/20) 2) ∧
    ((-1 : ℚ) / 1 < 0 ∧ (0 : ℚ) < 1 ∧
      calculate_target_position_size (some (1/10)) (3/20) 2 = 3/2 ∧
      position_size_step (some (1/10)) (some (-1)) (some 1) = 3/2 ∧ (3/2 : ℚ) ≠ 0) := by
  constructor
  · intro vol_y m v
    have hk : 0 ≤ kelly_size_step m v := by
      unfold kelly_size_step
      rcases v with _ | var
      · exact le_refl 0
      · dsimp only
        split
        · rcases m with _ | mean
          · exact le_refl 0
          · exact le_max_left 0 _
        · exact le_refl 0
    unfold position_size_step
    rw [if_neg (not_lt.mpr hk)]
  · have hvol : calculate_target_position_size (some (1/10)) (3/20) 2 = 3/2 := by
      show (if (1/10 : ℚ) ≤ 0 then (0 : ℚ) else min ((3/20 : ℚ) / (1/10)) 2) = 3/2
      rw [if_neg (by norm_num : ¬ (1/10 : ℚ) ≤ 0)]
      rw [show (3/20 : ℚ) / (1/10) = 3/2 by norm_num]
      exact min_eq_left (by norm_num)
    have hkelly : kelly_size_step (some (-1)) (some 1) = 0 := by
      show (if (0 : ℚ) < 1 then max 0 (min ((-1 : ℚ) / 1) 2) else 0) = 0
      rw [if_pos (by norm_num : (0 : ℚ) < 1)]
      rw [show ((-1 : ℚ)) / 1 = -1 by norm_num]
      rw [min_eq_left (by norm_num : (-1 : ℚ) ≤ 2)]
      exact max_eq_left (by norm_num)
    refine ⟨by norm_num, by norm_num, hvol, ?_, by norm_num⟩
    unfold position_size_step
    rw [hkelly, if_neg (by norm_num : ¬ (0 : ℚ) < 0), hvol]

/-- C2: the optimizer's fed signal series is independent of the exit
threshold, and differs from the Signal Generator's output: for zscore 1 with
entry 2 and exit 1/2 the optimizer feeds a definite 0 (EXIT) while the
generator emits HOLD (no value). -/
theorem C2_optimizer_signals_ignore_exit_threshold :
    (∀ (entry_z x1 x2 : ℚ) (zs : List (Option ℚ)),
      optimizer_signal_series entry_z x1 zs = optimizer_signal_series entry_z x2 zs) ∧
    optimizer_signal_series 2 (1/2) [some 1] = [some 0] ∧
    generate_signal_series 2 (1/2) [some 1] = [none] ∧
    optimizer_signal_series 2 (1/2) [some 1] ≠ generate_signal_series 2 (1/2) [some 1] := by
  have h1 : optimizer_signal_series 2 (1/2) [some 1] = [some 0] := by
    norm_num [optimizer_signal_series, optimizer_signal_raw]
  have h2 : generate_signal_series 2 (1/2) [some 1] = [none] := by
    norm_num [generate_signal_series, generate_signal_raw, abs_one]
  refine ⟨fun e x1 x2 zs => rfl, h1, h2, ?_⟩
  rw [h1, h2]
  simp

/-- C5 counterexample: with entry threshold 1/2, exit threshold 2 and zscore
-1 both the long-entry and the exit condition hold; the code assigns the exit
value 0 (the exit write comes last), while entry precedence would assign +1. -/
theorem C5_counterexample_exit_wins_overlap :
    generate_signal_raw (1/2) 2 (some (-1)) = some 0 ∧
    spec_signal_raw (1/2) 2 (some (-1)) = some 1 ∧
    generate_signal_raw (1/2) 2 (some (-1)) ≠ spec_signal_raw (1/2) 2 (some (-1)) := by
  have habs : |(-1 : ℚ)| = 1 := by rw [abs_neg, abs_one]
  have h1 : generate_signal_raw (1/2) 2 (some (-1)) = some 0 := by
    norm_num [generate_signal_raw, habs]
  have h2 : spec_signal_raw (1/2) 2 (some (-1)) = some 1 := by
    norm_num [spec_signal_raw, habs]
  refine ⟨h1, h2, ?_⟩
  rw [h1, h2]
  simp

/-- C5 amended: the exit assignment is written last, so when an entry
condition and the exit condition hold on the same date the EXIT value wins;
whenever the entry threshold is nonnegative and at least the exit threshold
(as in every shipped configuration) the conditions are mutually exclusive and
the assignment agrees with the claimed table. -/
theorem C5_amended_exit_precedence :
    ∀ (entry_z exit_z : ℚ) (z : Option ℚ),
      (0 ≤ entry_z → exit_z ≤ entry_z →
        generate_signal_raw entry_z exit_z z = spec_signal_raw entry_z exit_z z) ∧
      (∀ v : ℚ, z = some v → |v| < exit_z →
        generate_signal_raw entry_z exit_z z = some 0) := by
  intro e x z
  constructor
  · intro he hxe
    cases z with
    | none => rfl
    | some v =>
      have h1 : v ≤ |v| := le_abs_self v
      have h2 : -v ≤ |v| := neg_le_abs v
      unfold generate_signal_raw spec_signal_raw
      dsimp only
      split_ifs <;> first | rfl | (exfalso; linarith)
  · intro v hz hvx
    subst hz
    unfold generate_signal_raw
    dsimp only
    rw [if_pos hvx]

/-- C5 witness: concrete instances of both amended conjuncts with the default
thresholds. -/
theorem C5_amended_witness :
    generate_signal_raw 2 (1/2) (some (-3)) = spec_signal_raw 2 (1/2) (some (-3)) ∧
    generate_signal_raw 2 (1/2) (some (1/4)) = some 0 := by
  constructor
  · exact (C5_amended_exit_precedence 2 (1/2) (some (-3))).1 (by norm_num) (by norm_num)
  · refine (C5_amended_exit_precedence 2 (1/2) (some (1/4))).2 (1/4) rfl ?_
    rw [abs_of_pos (by norm_num : (0 : ℚ) < 1/4)]
    norm_num

/-- Embedding of pandas `Series.shift(1).fillna(d)` over a fixed date index
(src/backtesting/engine.py, lines 166-168): on a nonempty series the first
entry becomes the fill value, every later entry takes the previous value,
and the former last value drops off the end. -/
def shift1_fill {α : Type} (d : α) (l : List α) : List α :=
  match l with
  | [] => []
  | a :: t => d :: (a :: t).dropLast

/-- Gross strategy return series of `Backtester.run_backtest`
(src/backtesting/engine.py, lines 170-172): lagged position, times lagged
sizing multiplier, times the spread return of the date. -/
def gross_returns (ps : List ℤ) (ss rs : List ℚ) : List ℚ :=
  List.zipWith (fun p r => p * r)
    (List.zipWith (fun p s => (p : ℚ) * s) (shift1_fill 0 ps) (shift1_fill 1 ss)) rs

/-- Helper: the lag preserves the series length. -/
theorem shift1_fill_length {α : Type} (d : α) (l : List α) :
    (shift1_fill d l).length = l.length := by
  cases l with
  | nil => rfl
  | cons a t => simp [shift1_fill]

/-- Helper: after the lag, entry i+1 is the original entry i. -/
theorem shift1_fill_getD {α : Type} (d d0 : α) (l : List α) (i : ℕ)
    (h : i + 1 < l.length) : (shift1_fill d l).getD (i + 1) d0 = l.getD i d0 := by
  cases l with
  | nil => simp at h
  | cons a t =>
    have hi : i < (a :: t).dropLast.length := by
      simp only [List.length_dropLast]
      omega
    have hi2 : i < (a :: t).length := by simp at h ⊢; omega
    show ((a :: t).dropLast).getD i d0 = (a :: t).getD i d0
    rw [List.getD_eq_getElem _ _ hi, List.getD_eq_getElem _ _ hi2]
    exact List.getElem_dropLast _ _ hi

/-- Helper: after the lag, the first entry is the fill value. -/
theorem shift1_fill_head {α : Type} (d : α) (l : List α) (h : l ≠ []) :
    (shift1_fill d l).head? = some d := by
  cases l with
  | nil => exact absurd rfl h
  | cons a t => rfl

/-- C6: positions and sizing multipliers enter the return computation shifted
forward by one period (entry i+1 after the shift is the pre-shift entry i),
the first period after shifting holds position 0 and size 1, and therefore
the first date contributes zero gross return for every input. -/
theorem C6_one_period_lag :
    ∀ (ps : List ℤ) (ss rs : List ℚ),
      (shift1_fill (0 : ℤ) ps).length = ps.length ∧
      (shift1_fill (1 : ℚ) ss).length = ss.length ∧
      (∀ i, i + 1 < ps.length → (shift1_fill 0 ps).getD (i + 1) 0 = ps.getD i 0) ∧
      (∀ i, i + 1 < ss.length → (shift1_fill 1 ss).getD (i + 1) 0 = ss.getD i 0) ∧
      (ps ≠ [] → (shift1_fill (0 : ℤ) ps).head? = some 0) ∧
      (ss ≠ [] → (shift1_fill (1 : ℚ) ss).head? = some 1) ∧
      (ps ≠ [] → ss ≠ [] → rs ≠ [] → (gross_returns ps ss rs).head? = some 0) := by
  intro ps ss rs
  refine ⟨shift1_fill_length 0 ps, shift1_fill_length 1 ss,
    fun i h => shift1_fill_getD 0 0 ps i h, fun i h => shift1_fill_getD 1 0 ss i h,
    shift1_fill_head 0 ps, shift1_fill_head 1 ss, ?_⟩
  intro hp hs hr
  rcases ps with _ | ⟨p, pt⟩
  · exact absurd rfl hp
  rcases ss with _ | ⟨s, st⟩
  · exact absurd rfl hs
  rcases rs with _ | ⟨r, rt⟩
  · exact absurd rfl hr
  show some (((0 : ℤ) : ℚ) * 1 * r) = some 0
  norm_num

/-- C6 witness: the lag behaviour at concrete series of length two. -/
theorem C6_one_period_lag_witness :
    (shift1_fill (0 : ℤ) [3, 4]).getD 1 0 = 3 ∧
    (shift1_fill (1 : ℚ) [5, 6]).getD 1 0 = 5 ∧
    (shift1_fill (0 : ℤ) [3, 4]).head? = some 0 ∧
    (shift1_fill (1 : ℚ) [5, 6]).head? = some 1 ∧
    (gross_returns [3, 4] [5, 6] [7, 8]).head? = some 0 := by
  have h := C6_one_period_lag [3, 4] [5, 6] [7, 8]
  exact ⟨(h.2.2.1 0 (by norm_num)).trans rfl, (h.2.2.2.1 0 (by norm_num)).trans rfl,
    h.2.2.2.2.1 (by simp), h.2.2.2.2.2.1 (by simp),
    h.2.2.2.2.2.2 (by simp) (by simp) (by simp)⟩

/-- One backtest date as seen by the trade-extraction loop of
`Backtester.run_backtest` (src/backtesting/engine.py, lines 194-267): the
date ordinal, the (lagged, unsized) position sign of the date, the net
return of the date, and the absolute sized position of the date. -/
structure TradeRow where
  date : ℤ
  pos : ℤ
  net : ℚ
  size : ℚ
deriving DecidableEq

/-- One row of the trade log produced by the extraction pass. -/
structure TradeRecord where
  entry_date : ℤ
  exit_date : ℤ
  trade_type : String
  pnl : ℚ
  duration_days : ℤ
  avg_size : ℚ
deriving DecidableEq

/-- Extraction-loop state: the closed trades so far, each kept as the entry
row, the rows accumulated after entry, and the exit date; plus the open
trade, if any, kept as the entry row and the rows accumulated after it.
The entry row itself is part of the accumulation (the source seeds
`trade_pnl_series` and `avg_size` with the entry date's values). -/
structure ExtractState where
  closed : List (TradeRow × List TradeRow × ℤ)
  open_trade : Option (TradeRow × List TradeRow)
deriving DecidableEq

/-- One iteration of the extraction loop (src/backtesting/engine.py, lines
206-256): a nonzero sign while flat opens a trade seeded with the current
date; a nonzero sign while open either keeps accumulating (same direction)
or closes at this date and immediately reopens seeded with this date (sign
flip); a zero sign while open closes at this date without accumulating it. -/
def extract_step (st : ExtractState) (r : TradeRow) : ExtractState :=
  match st.open_trade with
  | none =>
    if r.pos ≠ 0 then { st with open_trade := some (r, []) } else st
  | some (e, acc) =>
    if r.pos = 0 then
      { closed := st.closed ++ [(e, acc, r.date)], open_trade := none }
    else if r.pos = e.pos then
      { st with open_trade := some (e, acc ++ [r]) }
    else
      { closed := st.closed ++ [(e, acc, r.date)], open_trade := some (r, []) }

/-- The full extraction pass (src/backtesting/engine.py, lines 195-267):
fold the loop over all dates, then force-close any open trade at the final
date of the series. -/
def extract_groups (rows : List TradeRow) : List (TradeRow × List TradeRow × ℤ) :=
  let st := rows.foldl extract_step { closed := [], open_trade := none }
  match st.open_trade with
  | none => st.closed
  | some (e, acc) => st.closed ++ [(e, acc, (rows.getLastD ⟨0, 0, 0, 0⟩).date)]

/-- Builds one trade-log row the way src/backtesting/engine.py lines 224-231,
249-256 and 260-267 do: pnl is the sum of accumulated net returns, duration
the day difference between exit and entry, avg size the arithmetic mean of
the accumulated absolute sized positions. -/
def mk_trade_record (e : TradeRow) (acc : List TradeRow) (xdate : ℤ) : TradeRecord :=
  { entry_date := e.date
    exit_date := xdate
    trade_type := if e.pos = 1 then "Long" else "Short"
    pnl := ((e :: acc).map TradeRow.net).sum
    duration_days := xdate - e.date
    avg_size := ((e :: acc).map TradeRow.size).sum / (((e :: acc).length : ℚ)) }

/-- Trade ledger of a backtest run. -/
def trades_log (rows : List TradeRow) : List TradeRecord :=
  (extract_groups rows).map (fun g => mk_trade_record g.1 g.2.1 g.2.2)

/-- C4: on the position sequence [+1, +1, -1, -1, 0] (arbitrary dates, net
returns and sizes) the extraction yields exactly two records: the first
closes at the flip date with pnl the sum of the two accumulated net returns,
calendar-day duration and mean accumulated size, and the second opens at
that same flip date with the new direction. -/
theorem C4_direct_sign_flip_two_trades (d0 d1 d2 d3 d4 : ℤ)
    (n0 n1 n2 n3 n4 s0 s1 s2 s3 s4 : ℚ) :
    trades_log [⟨d0, 1, n0, s0⟩, ⟨d1, 1, n1, s1⟩, ⟨d2, -1, n2, s2⟩,
        ⟨d3, -1, n3, s3⟩, ⟨d4, 0, n4, s4⟩] =
      [{ entry_date := d0, exit_date := d2, trade_type := "Long", pnl := n0 + n1,
         duration_days := d2 - d0, avg_size := (s0 + s1) / 2 },
       { entry_date := d2, exit_date := d4, trade_type := "Short", pnl := n2 + n3,
         duration_days := d4 - d2, avg_size := (s2 + s3) / 2 }] := by
  have hg : extract_groups [⟨d0, 1, n0, s0⟩, ⟨d1, 1, n1, s1⟩, ⟨d2, -1, n2, s2⟩,
      ⟨d3, -1, n3, s3⟩, ⟨d4, 0, n4, s4⟩] =
      [(⟨d0, 1, n0, s0⟩, [⟨d1, 1, n1, s1⟩], d2),
       (⟨d2, -1, n2, s2⟩, [⟨d3, -1, n3, s3⟩], d4)] := rfl
  rw [trades_log, hg]
  simp only [List.map_cons, List.map_nil, mk_trade_record, List.sum_cons, List.sum_nil,
    List.length_cons, List.length_nil]
  norm_num

/-- Dates whose net return a trade group accumulates: the entry date and the
dates of the rows accumulated after entry. -/
def group_dates (e : TradeRow) (acc : List TradeRow) : List ℤ :=
  (e :: acc).map TradeRow.date

/-- All dates counted into some trade record of the extraction, in order. -/
def counted_dates (rows : List TradeRow) : List ℤ :=
  ((extract_groups rows).map (fun g => group_dates g.1 g.2.1)).flatten

/-- Dates accumulated anywhere in an extraction state. -/
def state_dates (st : ExtractState) : List ℤ :=
  (st.closed.map (fun g => group_dates g.1 g.2.1)).flatten ++
    (match st.open_trade with
     | none => []
     | some (e, acc) => group_dates e acc)

/-- Helper: one extraction step accumulates the current date at most once,
and never touches previously accumulated dates. -/
theorem state_dates_step (st : ExtractState) (r : TradeRow) :
    state_dates (extract_step st r) = state_dates st ∨
    state_dates (extract_step st r) = state_dates st ++ [r.date] := by
  rcases st with ⟨closed, ot⟩
  rcases ot with _ | ⟨e, acc⟩
  · by_cases h : r.pos ≠ 0
    · right
      simp [extract_step, state_dates, h, group_dates]
    · left
      simp [extract_step, state_dates, h]
  · by_cases h0 : r.pos = 0
    · left
      simp [extract_step, state_dates, h0, group_dates]
    · by_cases he : r.pos = e.pos
      · right
        have h0e : ¬ e.pos = 0 := by
          rw [← he]
          exact h0
        simp [extract_step, state_dates, h0, h0e, he, group_dates]
      · right
        simp [extract_step, state_dates, h0, he, group_dates]

/-- Helper: folding the extraction over a suffix of rows only ever adds dates
of that suffix, in order, to the accumulated dates. -/
theorem state_dates_foldl (rows : List TradeRow) :
    ∀ st : ExtractState,
      List.Sublist (state_dates (List.foldl extract_step st rows))
        (state_dates st ++ rows.map TradeRow.date) := by
  induction rows with
  | nil =>
    intro st
    simp
  | cons r rs ih =>
    intro st
    rw [List.foldl_cons]
    have h2 := ih (extract_step st r)
    rcases state_dates_step st r with h | h
    · rw [h] at h2
      refine h2.trans ?_
      exact List.Sublist.append_left (List.sublist_cons_self r.date (rs.map TradeRow.date)) _
    · rw [h] at h2
      refine h2.trans ?_
      rw [List.append_assoc, List.singleton_append]
      exact List.Sublist.refl _

/-- Helper: the counted dates of the extraction are exactly the dates
accumulated in the final fold state (the forced close of a still-open trade
adds no new dates). -/
theorem counted_dates_eq_state (rows : List TradeRow) :
    counted_dates rows =
      state_dates (List.foldl extract_step { closed := [], open_trade := none } rows) := by
  unfold counted_dates extract_groups state_dates
  rcases List.foldl extract_step { closed := [], open_trade := none } rows with ⟨closed, ot⟩
  rcases ot with _ | ⟨e, acc⟩
  · simp
  · simp

/-- C10: every date's net return is accumulated into at most one trade
record: the concatenated accumulation lists of all records form a sublist of
the date index, so distinct dates give duplicate-free counted dates. -/
theorem C10_no_date_counted_twice :
    ∀ rows : List TradeRow,
      List.Sublist (counted_dates rows) (rows.map TradeRow.date) ∧
      ((rows.map TradeRow.date).Nodup → (counted_dates rows).Nodup) := by
  intro rows
  have h : List.Sublist (counted_dates rows) (rows.map TradeRow.date) := by
    rw [counted_dates_eq_state]
    have h2 := state_dates_foldl rows { closed := [], open_trade := none }
    simpa [state_dates] using h2
  exact ⟨h, fun hn => hn.sublist h⟩

/-- C10 witness: on the concrete flip sequence of C4 the counted dates are
duplicate-free. -/
theorem C10_no_date_counted_twice_witness :
    List.Sublist (counted_dates [⟨0, 1, 1, 1⟩, ⟨1, 1, 1, 1⟩, ⟨2, -1, 1, 1⟩,
        ⟨3, -1, 1, 1⟩, ⟨4, 0, 1, 1⟩]) [0, 1, 2, 3, 4] ∧
    (counted_dates [⟨0, 1, 1, 1⟩, ⟨1, 1, 1, 1⟩, ⟨2, -1, 1, 1⟩,
        ⟨3, -1, 1, 1⟩, ⟨4, 0, 1, 1⟩]).Nodup := by
  have h := C10_no_date_counted_twice
    [⟨0, 1, 1, 1⟩, ⟨1, 1, 1, 1⟩, ⟨2, -1, 1, 1⟩, ⟨3, -1, 1, 1⟩, ⟨4, 0, 1, 1⟩]
  exact ⟨h.1, h.2 (by decide)⟩

/-- A pair candidate as emitted by `StatArbStrategy.find_cointegrated_pairs`
(src/strategies/statarb.py, lines 70-77): column indices of the dependent
leg y and independent leg x, the cointegration p-value, the OLS hedge ratio,
and the spread half-life (⊤ is the +infinity sentinel). -/
structure PairInfo where
  y : ℕ
  x : ℕ
  p_value : ℚ
  beta : ℚ
  half_life : WithTop ℚ
deriving DecidableEq

/-- Default half-life window bounds from `StatArbStrategy.` init
(src/strategies/statarb.py, lines 34-35). -/
def min_half_life_default : WithTop ℚ := 1

/-- Default upper half-life bound. -/
def max_half_life_default : WithTop ℚ := 42

/-- Embedding of `StatArbStrategy.find_cointegrated_pairs`
(src/strategies/statarb.py, lines 42-82): nested loops over column indices
i, then j from i+1, keeping a pair when `check_cointegration` reports a
p-value below 0.05 (the meaning of `is_coint` in
src/analytics/statistics.py, line 32) and the spread half-life lies inside
the configured window, emitting y = column j and x = column i in encounter
order.  The statsmodels fits enter as oracles: `coint_test i j` is the
p-value and OLS hedge ratio for columns (i, j), `half_life_of i j` the
half-life of the associated spread. -/
def find_cointegrated_pairs (n : ℕ) (coint_test : ℕ → ℕ → ℚ × ℚ)
    (half_life_of : ℕ → ℕ → WithTop ℚ) (min_hl max_hl : WithTop ℚ) : List PairInfo :=
  (List.range n).flatMap (fun i =>
    (List.range' (i + 1) (n - (i + 1))).flatMap (fun j =>
      if (coint_test i j).1 < 1/20 then
        if min_hl ≤ half_life_of i j ∧ half_life_of i j ≤ max_hl then
          [{ y := j, x := i, p_value := (coint_test i j).1,
             beta := (coint_test i j).2, half_life := half_life_of i j }]
        else []
      else []))

/-- Row-major enumeration of the index pairs i < j scanned by the loops. -/
def row_major_pairs (n : ℕ) : List (ℕ × ℕ) :=
  (List.range n).flatMap (fun i =>
    (List.range' (i + 1) (n - (i + 1))).map (fun j => (i, j)))

/-- Helper: a flatMap whose values are empty or singleton lists is the
filterMap of the corresponding optional function. -/
theorem flatMap_eq_filterMap_aux {α β : Type} (l : List α) (G : α → List β)
    (g : α → Option β) (h : ∀ a, G a = (g a).toList) :
    l.flatMap G = l.filterMap g := by
  induction l with
  | nil => rfl
  | cons a t ih =>
    cases hga : g a with
    | none => simp [List.filterMap_cons, h a, hga, ih]
    | some b => simp [List.filterMap_cons, h a, hga, ih]

/-- C7: pair discovery emits exactly the filter of the row-major pair
enumeration by `p-value < 0.05 and half-life inside [min, max]`, with
y = column j and x = column i, in discovery order with no reordering; and
membership in that enumeration is exactly i < j < n. -/
theorem C7_pair_discovery_row_major_filter :
    ∀ (n : ℕ) (coint_test : ℕ → ℕ → ℚ × ℚ) (half_life_of : ℕ → ℕ → WithTop ℚ)
      (min_hl max_hl : WithTop ℚ),
      find_cointegrated_pairs n coint_test half_life_of min_hl max_hl =
        (row_major_pairs n).filterMap (fun ij =>
          if (coint_test ij.1 ij.2).1 < 1/20 ∧
              min_hl ≤ half_life_of ij.1 ij.2 ∧ half_life_of ij.1 ij.2 ≤ max_hl then
            some { y := ij.2, x := ij.1, p_value := (coint_test ij.1 ij.2).1,
                   beta := (coint_test ij.1 ij.2).2, half_life := half_life_of ij.1 ij.2 }
          else none) ∧
      (∀ i j : ℕ, (i, j) ∈ row_major_pairs n ↔ i < j ∧ j < n) := by
  intro n ct hlf minh maxh
  constructor
  · unfold find_cointegrated_pairs row_major_pairs
    rw [List.filterMap_flatMap]
    refine congrArg _ (funext fun i => ?_)
    rw [List.filterMap_map]
    refine flatMap_eq_filterMap_aux _ _ _ fun j => ?_
    dsimp only [Function.comp]
    by_cases hp : (ct i j).1 < 1/20
    · by_cases hw : minh ≤ hlf i j ∧ hlf i j ≤ maxh
      · rw [if_pos hp, if_pos hw, if_pos ⟨hp, hw⟩]
        rfl
      · rw [if_pos hp, if_neg hw, if_neg fun h => hw h.2]
        rfl
    · rw [if_neg hp, if_neg fun h => hp h.1]
      rfl
  · intro i j
    unfold row_major_pairs
    rw [List.mem_flatMap]
    constructor
    · rintro ⟨a, ha, hmem⟩
      rw [List.mem_range] at ha
      rw [List.mem_map] at hmem
      rcases hmem with ⟨b, hb, heq⟩
      rw [List.mem_range'_1] at hb
      rcases Prod.mk.injEq .. ▸ heq with ⟨rfl, rfl⟩
      constructor <;> omega
    · rintro ⟨hij, hjn⟩
      refine ⟨i, ?_, ?_⟩
      · rw [List.mem_range]
        omega
      · rw [List.mem_map]
        refine ⟨j, ?_, rfl⟩
        rw [List.mem_range'_1]
        omega

/-- Arithmetic mean of a list of rationals (0 for the empty list, since
division by zero is 0 in ℚ). -/
def list_mean (l : List ℚ) : ℚ := l.sum / (l.length : ℚ)

/-- Ordinary-least-squares slope, with intercept, for the paired samples
(x_k, y_k): the normal-equation closed form Sxy / Sxx, undefined (`none`)
when the regressor is degenerate (zero variance). -/
def ols_slope (x y : List ℚ) : Option ℚ :=
  if (x.map (fun v => (v - list_mean x) ^ 2)).sum = 0 then none
  else some ((List.zipWith (fun a b => (a - list_mean x) * (b - list_mean y)) x y).sum /
    (x.map (fun v => (v - list_mean x) ^ 2)).sum)

/-- The AR(1) slope fitted by `calculate_half_life`
(src/analytics/statistics.py, lines 62-69): regress the one-day differences
`spread[t] - spread[t-1]` on the lagged level `spread[t-1]`, with intercept,
after dropping the undefined first lag entry. -/
def ar1_slope (spread : List ℚ) : Option ℚ :=
  ols_slope spread.dropLast
    (List.zipWith (fun prev cur => cur - prev) spread (spread.drop 1))

/-- Branch structure of `calculate_half_life` (src/analytics/statistics.py,
lines 71-78), with the exact natural logarithm entering as the oracle `ln`:
a slope of at least 0 returns the +infinity sentinel (⊤, never an
exception), a negative slope returns -ln 2 / ln (1 + b). -/
def half_life_of_slope (ln : ℚ → ℚ) (b : ℚ) : WithTop ℚ :=
  if 0 ≤ b then ⊤ else ((-(ln 2) / ln (1 + b) : ℚ) : WithTop ℚ)

/-- `calculate_half_life` end to end on a spread series: fit the AR(1)
slope, then apply the sentinel branch. -/
def calculate_half_life (ln : ℚ → ℚ) (spread : List ℚ) : Option (WithTop ℚ) :=
  (ar1_slope spread).map (half_life_of_slope ln)

/-- C9: whenever the AR(1) fit is defined, `calculate_half_life` returns a
value rather than raising: the +infinity sentinel exactly when the slope is
at least 0, and -ln 2 / ln (1 + b) when the slope b is negative; moreover
for -1 < b < 0 and any log oracle that is negative on (0, 1) and positive
at 2, the returned half-life is a positive finite rational. -/
theorem C9_half_life_sentinel :
    ∀ (ln : ℚ → ℚ) (spread : List ℚ) (b : ℚ),
      ar1_slope spread = some b →
      ((0 ≤ b → calculate_half_life ln spread = some ⊤) ∧
       (b < 0 →
         calculate_half_life ln spread = some ((-(ln 2) / ln (1 + b) : ℚ) : WithTop ℚ)) ∧
       ((∀ q, 0 < q → q < 1 → ln q < 0) → 0 < ln 2 → -1 < b → b < 0 →
         ∃ h : ℚ, calculate_half_life ln spread = some ((h : ℚ) : WithTop ℚ) ∧ 0 < h)) := by
  intro ln spread b hb
  have hcalc : calculate_half_life ln spread = some (half_life_of_slope ln b) := by
    rw [calculate_half_life, hb]
    rfl
  refine ⟨?_, ?_, ?_⟩
  · intro h0
    rw [hcalc, half_life_of_slope, if_pos h0]
  · intro hneg
    rw [hcalc, half_life_of_slope, if_neg (not_le.mpr hneg)]
  · intro hln h2 hm1 hneg
    refine ⟨-(ln 2) / ln (1 + b), ?_, ?_⟩
    · rw [hcalc, half_life_of_slope, if_neg (not_le.mpr hneg)]
    · have hlt : ln (1 + b) < 0 := hln (1 + b) (by linarith) (by linarith)
      have hnum : -(ln 2) < 0 := by linarith
      exact div_pos_of_neg_of_neg hnum hlt

/-- C9 witness: on the synthetic AR(1) spread [1, 1/2, 1/4] (slope -1/2)
with the oracle ln q = q - 1, the half-life is the positive finite value 2. -/
theorem C9_half_life_sentinel_witness :
    calculate_half_life (fun q => q - 1) [1, 1/2, 1/4] = some ((2 : ℚ) : WithTop ℚ) ∧
    (∃ h : ℚ, calculate_half_life (fun q => q - 1) [1, 1/2, 1/4] =
      some ((h : ℚ) : WithTop ℚ) ∧ 0 < h) := by
  have hdl : ([1, 1/2, 1/4] : List ℚ).dropLast = [1, 1/2] := rfl
  have hdr : ([1, 1/2, 1/4] : List ℚ).drop 1 = [1/2, 1/4] := rfl
  have hsl : ar1_slope [1, 1/2, 1/4] = some (-(1/2)) := by
    rw [ar1_slope, hdl, hdr, ols_slope]
    norm_num [list_mean]
  have h := C9_half_life_sentinel (fun q => q - 1) [1, 1/2, 1/4] (-(1/2)) hsl
  constructor
  · have h2 := h.2.1 (by norm_num)
    rw [h2]
    norm_num
  · exact h.2.2 (fun q h0 h1 => by simpa using h1) (by norm_num) (by norm_num) (by norm_num)
